import Mathlib

/-!
Verification of `PokemonCafe_Tweaked.py` (PhaserArray/jp-pokemon-cafe).

Shallow embedding of the parts of the script that the specification talks
about: the slot-selection policy `select_best_time`, the slot extraction
loop, the page-state decision chain of the control loop, the guest-count
handler, the target-time waiter `wait_until_datetime`, the pre-loop wait
handling, and the calendar month navigation.
-/

namespace PokemonCafe

/-- Python `datetime.time` values compare lexicographically by
`(hour, minute, second, microsecond)`; every `time` the script builds is a
valid minute-resolution time (`hour < 24`, `minute < 60`, seconds zero), on
which that order coincides with the count of minutes since midnight.  A
time-of-day is therefore represented by its minute count. -/
abbrev Time := Nat

/-- The time-of-day `h:m`, as minutes since midnight. -/
def hhmm (h m : Nat) : Time := h * 60 + m

/-- Python exceptions that the modelled code can raise. -/
inductive PyError where
  | typeError
  | valueError
  | noSuchElement
  | invalidSessionId
  | noSuchWindow
deriving DecidableEq, Repr

/-- The control loop's `except (InvalidSessionIdException, NoSuchWindowException)`
clause: which of the modelled exceptions the `while True` loop catches
(`KeyboardInterrupt` is a signal, not raised by the modelled code). -/
def loop_catches : PyError → Bool
  | .invalidSessionId => true
  | .noSuchWindow => true
  | _ => false

/-!
## `select_best_time` (lines 55–79)

The Python function takes `time_slots : List[time]`, `min_time : Optional[time]`,
`max_time : Optional[time]`.  Since Python 3.5 every `time` object is truthy,
so `not min_time` is `min_time is None`; the two single-bound loops carry an
`Optional[time]` accumulator updated when `not latest_time or time_slot > latest_time`
(resp. `... < earliest_time`).
-/

/-- One iteration of the `elif min_time:` loop body:
`if time_slot >= min_time: if not latest_time or time_slot > latest_time: latest_time = time_slot`. -/
def update_latest (min_time : Time) (acc : Option Time) (time_slot : Time) : Option Time :=
  if min_time ≤ time_slot then
    match acc with
    | none => some time_slot
    | some latest_time => if latest_time < time_slot then some time_slot else some latest_time
  else acc

/-- One iteration of the `elif max_time:` loop body:
`if time_slot <= max_time: if not earliest_time or time_slot < earliest_time: earliest_time = time_slot`. -/
def update_earliest (max_time : Time) (acc : Option Time) (time_slot : Time) : Option Time :=
  if time_slot ≤ max_time then
    match acc with
    | none => some time_slot
    | some earliest_time => if time_slot < earliest_time then some time_slot else some earliest_time
  else acc

/-- The `if min_time and max_time:` loop: return the first slot with
`min_time <= time_slot <= max_time`, else fall out to `return None`. -/
def find_first_in_bounds (min_time max_time : Time) : List Time → Option Time
  | [] => none
  | time_slot :: rest =>
      if min_time ≤ time_slot ∧ time_slot ≤ max_time then some time_slot
      else find_first_in_bounds min_time max_time rest

/-- `select_best_time(time_slots, min_time, max_time)` (lines 55–79). -/
def select_best_time (time_slots : List Time) (min_time max_time : Option Time) :
    Option Time :=
  match time_slots with
  | [] => none
  | first :: _ =>
    match min_time, max_time with
    | none, none => some first
    | some mn, some mx => find_first_in_bounds mn mx time_slots
    | some mn, none => time_slots.foldl (update_latest mn) none
    | none, some mx => time_slots.foldl (update_earliest mx) none

/-- The both-bounds loop yields the first qualifying element: whatever it
returns is in bounds and splits the list with no qualifying element before it. -/
theorem find_first_in_bounds_some (mn mx : Time) (S : List Time) :
    ∀ t : Time, find_first_in_bounds mn mx S = some t →
      mn ≤ t ∧ t ≤ mx ∧ ∃ S₁ S₂, S = S₁ ++ t :: S₂ ∧ ∀ s ∈ S₁, ¬(mn ≤ s ∧ s ≤ mx) := by
  induction S with
  | nil => intro t h; simp [find_first_in_bounds] at h
  | cons a rest ih =>
      intro t h
      by_cases hc : mn ≤ a ∧ a ≤ mx
      · simp only [find_first_in_bounds, if_pos hc, Option.some.injEq] at h
        subst h
        exact ⟨hc.1, hc.2, [], rest, rfl, by simp⟩
      · simp only [find_first_in_bounds, if_neg hc] at h
        obtain ⟨h1, h2, S₁, S₂, hS, hall⟩ := ih t h
        refine ⟨h1, h2, a :: S₁, S₂, by simp [hS], ?_⟩
        intro s hs
        rcases List.mem_cons.mp hs with rfl | hs
        · exact hc
        · exact hall s hs

/-- The both-bounds loop falls through to `return None` exactly when no
element qualifies. -/
theorem find_first_in_bounds_none (mn mx : Time) (S : List Time) :
    find_first_in_bounds mn mx S = none ↔ ∀ s ∈ S, ¬(mn ≤ s ∧ s ≤ mx) := by
  induction S with
  | nil => simp [find_first_in_bounds]
  | cons a rest ih =>
      by_cases hc : mn ≤ a ∧ a ≤ mx
      · simp [find_first_in_bounds, hc]
      · simp [find_first_in_bounds, hc, ih]
        intro _ h1
        by_contra h2
        exact hc ⟨h1, Nat.le_of_not_lt h2⟩

/-- C1: with both bounds set, `select_best_time` returns the first element of
the slot list (in its original listed order) lying in `[mn, mx]`, and `None`
exactly when no element lies in `[mn, mx]`. -/
theorem select_best_time_both_bounds (S : List Time) (mn mx : Time) :
    (∀ t : Time, select_best_time S (some mn) (some mx) = some t →
      mn ≤ t ∧ t ≤ mx ∧ ∃ S₁ S₂, S = S₁ ++ t :: S₂ ∧ ∀ s ∈ S₁, ¬(mn ≤ s ∧ s ≤ mx))
    ∧ (select_best_time S (some mn) (some mx) = none ↔ ∀ s ∈ S, ¬(mn ≤ s ∧ s ≤ mx)) := by
  cases S with
  | nil => exact ⟨fun t h => by simp [select_best_time] at h, by simp [select_best_time]⟩
  | cons a rest =>
      constructor
      · intro t h
        simp only [select_best_time] at h
        exact find_first_in_bounds_some mn mx (a :: rest) t h
      · simp only [select_best_time]
        exact find_first_in_bounds_none mn mx (a :: rest)

/-- C1 witness (end-to-end scenario C): slots `[09:00, 10:00, 11:00]`,
bounds `09:30`–`10:30`, selection `10:00`: it is in bounds and is the first
qualifying slot. -/
theorem select_best_time_both_bounds_witness :
    hhmm 9 30 ≤ hhmm 10 0 ∧ hhmm 10 0 ≤ hhmm 10 30 ∧
    ∃ S₁ S₂, ([hhmm 9 0, hhmm 10 0, hhmm 11 0] : List Time) = S₁ ++ hhmm 10 0 :: S₂ ∧
      ∀ s ∈ S₁, ¬(hhmm 9 30 ≤ s ∧ s ≤ hhmm 10 30) :=
  (select_best_time_both_bounds [hhmm 9 0, hhmm 10 0, hhmm 11 0] (hhmm 9 30)
    (hhmm 10 30)).1 (hhmm 10 0) (by decide)

/-- The `latest_time` accumulator stays `None` exactly when it was `None` and
the new slot fails the `time_slot >= min_time` test. -/
theorem update_latest_none_iff (mn : Time) (acc : Option Time) (a : Time) :
    update_latest mn acc a = none ↔ acc = none ∧ ¬ mn ≤ a := by
  cases acc with
  | none =>
      simp only [update_latest]
      split
      next hma => simp [hma]
      next hma => simp [hma]
  | some a₀ =>
      simp only [update_latest]
      split
      next => split <;> simp
      next => simp

/-- Case analysis of one `latest_time` update: the stored value comes from the
old accumulator or is the new qualifying slot, never decreases, and dominates
the new slot whenever that slot qualifies. -/
theorem update_latest_some_cases (mn : Time) (acc : Option Time) (a v : Time)
    (h : update_latest mn acc a = some v) :
    (acc = some v ∨ (v = a ∧ mn ≤ a)) ∧ (∀ a₀, acc = some a₀ → a₀ ≤ v)
      ∧ (mn ≤ a → a ≤ v) := by
  cases acc with
  | none =>
      simp only [update_latest] at h
      split at h
      next hma =>
        injection h with h
        subst h
        exact ⟨Or.inr ⟨rfl, hma⟩, by simp, fun _ => Nat.le_refl _⟩
      next => exact absurd h (by simp)
  | some a₀ =>
      simp only [update_latest] at h
      split at h
      next hma =>
        split at h
        next hlt =>
          injection h with h
          subst h
          refine ⟨Or.inr ⟨rfl, hma⟩, ?_, fun _ => Nat.le_refl _⟩
          intro x hx
          injection hx with hx
          subst hx
          exact Nat.le_of_lt hlt
        next hlt =>
          injection h with h
          subst h
          refine ⟨Or.inl rfl, ?_, fun _ => Nat.le_of_not_lt hlt⟩
          intro x hx
          injection hx with hx
          subst hx
          exact Nat.le_refl _
      next hma =>
        injection h with h
        subst h
        refine ⟨Or.inl rfl, ?_, fun hma2 => absurd hma2 hma⟩
        intro x hx
        injection hx with hx
        subst hx
        exact Nat.le_refl _

/-- Invariant of the whole `elif min_time:` loop, for any starting
accumulator: the result is `None` exactly when the accumulator was `None` and
no slot qualifies, and any returned value originates from the accumulator or
the qualifying slots and dominates both. -/
theorem latest_loop_spec (mn : Time) (S : List Time) : ∀ acc : Option Time,
    (S.foldl (update_latest mn) acc = none ↔ acc = none ∧ ∀ s ∈ S, ¬ mn ≤ s)
    ∧ (∀ t, S.foldl (update_latest mn) acc = some t →
        (acc = some t ∨ (t ∈ S ∧ mn ≤ t))
        ∧ (∀ a₀, acc = some a₀ → a₀ ≤ t)
        ∧ (∀ s ∈ S, mn ≤ s → s ≤ t)) := by
  induction S with
  | nil =>
      intro acc
      refine ⟨by simp, ?_⟩
      intro t h
      simp only [List.foldl_nil] at h
      subst h
      refine ⟨Or.inl rfl, ?_, by simp⟩
      intro a₀ ha₀
      injection ha₀ with ha₀
      subst ha₀
      exact Nat.le_refl _
  | cons a rest ih =>
      intro acc
      constructor
      · rw [List.foldl_cons, (ih (update_latest mn acc a)).1]
        constructor
        · rintro ⟨h1, h2⟩
          rw [update_latest_none_iff] at h1
          refine ⟨h1.1, ?_⟩
          intro s hs
          rcases List.mem_cons.mp hs with heq | hs'
          · subst heq; exact h1.2
          · exact h2 s hs'
        · rintro ⟨h1, h2⟩
          refine ⟨?_, fun s hs => h2 s (List.mem_cons_of_mem a hs)⟩
          rw [update_latest_none_iff]
          exact ⟨h1, h2 a (List.mem_cons_self a rest)⟩
      · intro t h
        rw [List.foldl_cons] at h
        obtain ⟨horig, hacc, hub⟩ := (ih (update_latest mn acc a)).2 t h
        refine ⟨?_, ?_, ?_⟩
        · rcases horig with h' | h'
          · rcases (update_latest_some_cases mn acc a t h').1 with h'' | h''
            · exact Or.inl h''
            · obtain ⟨hta, hma⟩ := h''
              subst hta
              exact Or.inr ⟨List.mem_cons_self _ _, hma⟩
          · exact Or.inr ⟨List.mem_cons_of_mem a h'.1, h'.2⟩
        · intro a₀ ha₀
          cases hv : update_latest mn acc a with
          | none =>
              rw [update_latest_none_iff] at hv
              rw [ha₀] at hv
              exact absurd hv.1 (by simp)
          | some v =>
              exact Nat.le_trans ((update_latest_some_cases mn acc a v hv).2.1 a₀ ha₀)
                (hacc v hv)
        · intro s hs hms
          rcases List.mem_cons.mp hs with heq | hs'
          · subst heq
            cases hv : update_latest mn acc s with
            | none =>
                rw [update_latest_none_iff] at hv
                exact absurd hms hv.2
            | some v =>
                exact Nat.le_trans ((update_latest_some_cases mn acc s v hv).2.2 hms)
                  (hacc v hv)
          · exact hub s hs' hms

/-- C2: with only the `min` bound set, `select_best_time` returns the maximum
slot among those `≥ min` (`None` exactly when no slot is `≥ min`), and on
slots `[10:25, 10:40, 11:00]` with `min = 10:30` it returns `11:00`. -/
theorem select_best_time_min_only (S : List Time) (mn : Time) :
    (∀ t, select_best_time S (some mn) none = some t →
        t ∈ S ∧ mn ≤ t ∧ ∀ s ∈ S, mn ≤ s → s ≤ t)
    ∧ (select_best_time S (some mn) none = none ↔ ∀ s ∈ S, ¬ mn ≤ s)
    ∧ select_best_time [hhmm 10 25, hhmm 10 40, hhmm 11 0] (some (hhmm 10 30)) none
        = some (hhmm 11 0) := by
  refine ⟨?_, ?_, by decide⟩
  · intro t h
    cases S with
    | nil => simp [select_best_time] at h
    | cons a rest =>
        simp only [select_best_time] at h
        obtain ⟨horig, _, hub⟩ := (latest_loop_spec mn (a :: rest) none).2 t h
        rcases horig with h' | h'
        · exact absurd h' (by simp)
        · exact ⟨h'.1, h'.2, hub⟩
  · cases S with
    | nil => simp [select_best_time]
    | cons a rest =>
        simp only [select_best_time]
        rw [(latest_loop_spec mn (a :: rest) none).1]
        simp

/-- C2 witness (end-to-end scenario A): the selected `11:00` is a member of
`[10:25, 10:40, 11:00]`, is `≥ 10:30`, and dominates every slot `≥ 10:30`. -/
theorem select_best_time_min_only_witness :
    (hhmm 11 0 : Time) ∈ [hhmm 10 25, hhmm 10 40, hhmm 11 0]
    ∧ hhmm 10 30 ≤ hhmm 11 0
    ∧ ∀ s ∈ [hhmm 10 25, hhmm 10 40, hhmm 11 0], hhmm 10 30 ≤ s → s ≤ hhmm 11 0 :=
  (select_best_time_min_only [hhmm 10 25, hhmm 10 40, hhmm 11 0] (hhmm 10 30)).1
    (hhmm 11 0) (by decide)

/-- The `earliest_time` accumulator stays `None` exactly when it was `None`
and the new slot fails the `time_slot <= max_time` test. -/
theorem update_earliest_none_iff (mx : Time) (acc : Option Time) (a : Time) :
    update_earliest mx acc a = none ↔ acc = none ∧ ¬ a ≤ mx := by
  cases acc with
  | none =>
      simp only [update_earliest]
      split
      next hma => simp [hma]
      next hma => simp [hma]
  | some a₀ =>
      simp only [update_earliest]
      split
      next => split <;> simp
      next => simp

/-- Case analysis of one `earliest_time` update: the stored value comes from
the old accumulator or is the new qualifying slot, never increases, and is
dominated by the new slot whenever that slot qualifies. -/
theorem update_earliest_some_cases (mx : Time) (acc : Option Time) (a v : Time)
    (h : update_earliest mx acc a = some v) :
    (acc = some v ∨ (v = a ∧ a ≤ mx)) ∧ (∀ a₀, acc = some a₀ → v ≤ a₀)
      ∧ (a ≤ mx → v ≤ a) := by
  cases acc with
  | none =>
      simp only [update_earliest] at h
      split at h
      next hma =>
        injection h with h
        subst h
        exact ⟨Or.inr ⟨rfl, hma⟩, by simp, fun _ => Nat.le_refl _⟩
      next => exact absurd h (by simp)
  | some a₀ =>
      simp only [update_earliest] at h
      split at h
      next hma =>
        split at h
        next hlt =>
          injection h with h
          subst h
          refine ⟨Or.inr ⟨rfl, hma⟩, ?_, fun _ => Nat.le_refl _⟩
          intro x hx
          injection hx with hx
          subst hx
          exact Nat.le_of_lt hlt
        next hlt =>
          injection h with h
          subst h
          refine ⟨Or.inl rfl, ?_, fun _ => Nat.le_of_not_lt hlt⟩
          intro x hx
          injection hx with hx
          subst hx
          exact Nat.le_refl _
      next hma =>
        injection h with h
        subst h
        refine ⟨Or.inl rfl, ?_, fun hma2 => absurd hma2 hma⟩
        intro x hx
        injection hx with hx
        subst hx
        exact Nat.le_refl _

/-- Invariant of the whole `elif max_time:` loop, for any starting
accumulator (mirror image of `latest_loop_spec`). -/
theorem earliest_loop_spec (mx : Time) (S : List Time) : ∀ acc : Option Time,
    (S.foldl (update_earliest mx) acc = none ↔ acc = none ∧ ∀ s ∈ S, ¬ s ≤ mx)
    ∧ (∀ t, S.foldl (update_earliest mx) acc = some t →
        (acc = some t ∨ (t ∈ S ∧ t ≤ mx))
        ∧ (∀ a₀, acc = some a₀ → t ≤ a₀)
        ∧ (∀ s ∈ S, s ≤ mx → t ≤ s)) := by
  induction S with
  | nil =>
      intro acc
      refine ⟨by simp, ?_⟩
      intro t h
      simp only [List.foldl_nil] at h
      subst h
      refine ⟨Or.inl rfl, ?_, by simp⟩
      intro a₀ ha₀
      injection ha₀ with ha₀
      subst ha₀
      exact Nat.le_refl _
  | cons a rest ih =>
      intro acc
      constructor
      · rw [List.foldl_cons, (ih (update_earliest mx acc a)).1]
        constructor
        · rintro ⟨h1, h2⟩
          rw [update_earliest_none_iff] at h1
          refine ⟨h1.1, ?_⟩
          intro s hs
          rcases List.mem_cons.mp hs with heq | hs'
          · subst heq; exact h1.2
          · exact h2 s hs'
        · rintro ⟨h1, h2⟩
          refine ⟨?_, fun s hs => h2 s (List.mem_cons_of_mem a hs)⟩
          rw [update_earliest_none_iff]
          exact ⟨h1, h2 a (List.mem_cons_self a rest)⟩
      · intro t h
        rw [List.foldl_cons] at h
        obtain ⟨horig, hacc, hlb⟩ := (ih (update_earliest mx acc a)).2 t h
        refine ⟨?_, ?_, ?_⟩
        · rcases horig with h' | h'
          · rcases (update_earliest_some_cases mx acc a t h').1 with h'' | h''
            · exact Or.inl h''
            · obtain ⟨hta, hma⟩ := h''
              subst hta
              exact Or.inr ⟨List.mem_cons_self _ _, hma⟩
          · exact Or.inr ⟨List.mem_cons_of_mem a h'.1, h'.2⟩
        · intro a₀ ha₀
          cases hv : update_earliest mx acc a with
          | none =>
              rw [update_earliest_none_iff] at hv
              rw [ha₀] at hv
              exact absurd hv.1 (by simp)
          | some v =>
              exact Nat.le_trans (hacc v hv)
                ((update_earliest_some_cases mx acc a v hv).2.1 a₀ ha₀)
        · intro s hs hms
          rcases List.mem_cons.mp hs with heq | hs'
          · subst heq
            cases hv : update_earliest mx acc s with
            | none =>
                rw [update_earliest_none_iff] at hv
                exact absurd hms hv.2
            | some v =>
                exact Nat.le_trans (hacc v hv)
                  ((update_earliest_some_cases mx acc s v hv).2.2 hms)
          · exact hlb s hs' hms

/-- C3: with only the `max` bound set, `select_best_time` returns the minimum
slot among those `≤ max` (`None` exactly when no slot is `≤ max`), and on
slots `[10:25, 10:40]` with `max = 10:30` it returns `10:25`. -/
theorem select_best_time_max_only (S : List Time) (mx : Time) :
    (∀ t, select_best_time S none (some mx) = some t →
        t ∈ S ∧ t ≤ mx ∧ ∀ s ∈ S, s ≤ mx → t ≤ s)
    ∧ (select_best_time S none (some mx) = none ↔ ∀ s ∈ S, ¬ s ≤ mx)
    ∧ select_best_time [hhmm 10 25, hhmm 10 40] none (some (hhmm 10 30))
        = some (hhmm 10 25) := by
  refine ⟨?_, ?_, by decide⟩
  · intro t h
    cases S with
    | nil => simp [select_best_time] at h
    | cons a rest =>
        simp only [select_best_time] at h
        obtain ⟨horig, _, hlb⟩ := (earliest_loop_spec mx (a :: rest) none).2 t h
        rcases horig with h' | h'
        · exact absurd h' (by simp)
        · exact ⟨h'.1, h'.2, hlb⟩
  · cases S with
    | nil => simp [select_best_time]
    | cons a rest =>
        simp only [select_best_time]
        rw [(earliest_loop_spec mx (a :: rest) none).1]
        simp

/-- C3 witness (end-to-end scenario B): the selected `10:25` is a member of
`[10:25, 10:40]`, is `≤ 10:30`, and is below every slot `≤ 10:30`. -/
theorem select_best_time_max_only_witness :
    (hhmm 10 25 : Time) ∈ [hhmm 10 25, hhmm 10 40]
    ∧ hhmm 10 25 ≤ hhmm 10 30
    ∧ ∀ s ∈ [hhmm 10 25, hhmm 10 40], s ≤ hhmm 10 30 → hhmm 10 25 ≤ s :=
  (select_best_time_max_only [hhmm 10 25, hhmm 10 40] (hhmm 10 30)).1
    (hhmm 10 25) (by decide)

/-- C4: for every choice of bounds the empty slot list yields no selection,
and with no bounds set a non-empty slot list yields its first element. -/
theorem select_best_time_empty_and_unbounded :
    (∀ min_time max_time : Option Time, select_best_time [] min_time max_time = none)
    ∧ ∀ (a : Time) (rest : List Time),
        select_best_time (a :: rest) none none = some a := by
  exact ⟨fun _ _ => rfl, fun _ _ => rfl⟩

/-!
## Element lookup helpers (lines 41–52)

`presence` abstracts what the DOM currently holds for one query: `some e`
when the queried element exists, `none` when it does not.
-/

/-- `driver.find_element(by, value)`: returns the element or raises
`NoSuchElementException` when it is absent. -/
def find_element {α : Type} (presence : Option α) : Except PyError α :=
  match presence with
  | some e => .ok e
  | none => .error .noSuchElement

/-- `safe_find_element` (lines 41–45): `find_element` wrapped in
`try/except NoSuchElementException`, yielding `None` instead of raising. -/
def safe_find_element {α : Type} (presence : Option α) : Option α :=
  match find_element presence with
  | .ok e => some e
  | .error _ => none

/-!
## Slot extraction (lines 245–256)
-/

/-- Decimal value of an ASCII digit. -/
def digit_val (c : Char) : Nat := c.toNat - '0'.toNat

/-- Head-anchored attempt of the fixed-width pattern `(\d{2}:\d{2})`: two
digits, a colon, two digits (digits modelled as ASCII `0`–`9`, which is what
the site's slot labels use). -/
def hhmm_match_head : List Char → Option (List Char)
  | a :: b :: c :: d :: e :: _ =>
      if a.isDigit ∧ b.isDigit ∧ c = ':' ∧ d.isDigit ∧ e.isDigit then
        some [a, b, c, d, e]
      else none
  | _ => none

/-- `re.search(r"(\d{2}:\d{2})", s)`: the leftmost match of the pattern, or
`None` when the text holds no such substring. -/
def re_search_hhmm : List Char → Option (List Char)
  | [] => none
  | a :: rest =>
      match hhmm_match_head (a :: rest) with
      | some m => some m
      | none => re_search_hhmm rest

/-- `datetime.strptime(s, "%H:%M").time()` applied to a five-character match:
yields the time when the hour is `≤ 23` and the minute `≤ 59`, and `None`
(modelling the `ValueError` raise) otherwise. -/
def strptime_hhmm : List Char → Option Time
  | [a, b, c, d, e] =>
      if a.isDigit ∧ b.isDigit ∧ c = ':' ∧ d.isDigit ∧ e.isDigit then
        let h := 10 * digit_val a + digit_val b
        let m := 10 * digit_val d + digit_val e
        if h ≤ 23 ∧ m ≤ 59 then some (hhmm h m) else none
      else none
  | _ => none

/-- The slot-extraction loop (lines 249–255).  For each slot text it runs
`re.search(r"(\d{2}:\d{2})", ...)` and then evaluates
`if extracted_time[0]:`; when the search returned `None` that subscript
raises `TypeError` (`'NoneType' object is not subscriptable`); when the
matched text is not a valid `%H:%M` time, `strptime` raises `ValueError`;
otherwise the parsed time is appended in listed order. -/
def extract_times : List (List Char) → Except PyError (List Time)
  | [] => .ok []
  | s :: rest =>
      match re_search_hhmm s with
      | none => .error .typeError
      | some m =>
          match strptime_hhmm m with
          | none => .error .valueError
          | some t =>
              match extract_times rest with
              | .error e => .error e
              | .ok ts => .ok (t :: ts)

/-- C5: extraction does parse, in listed order, the first `HH:MM` substring
of texts that have one, but a text with no `HH:MM` substring makes the loop
raise an uncaught `TypeError` instead of being dropped silently: the
control loop's `except` clauses do not cover it. -/
theorem extract_times_crashes_on_unmatched_text :
    extract_times [String.toList "B席 10:25~ 空席 Available",
        String.toList "C席 10:40~ 空席 Available"]
      = .ok [hhmm 10 25, hhmm 10 40]
    ∧ extract_times [String.toList "Unavailable"] = .error .typeError
    ∧ loop_catches .typeError = false := ⟨rfl, rfl, rfl⟩

/-!
## Guest-count branch of the Table Reservation handler (lines 275–282)
-/

/-- What the guest-count branch does when it does not raise. -/
inductive GuestAction where
  /-- `option[selected='selected'][value='{guests}']` exists: fall through to
  the calendar handling. -/
  | fallThroughToCalendar
  /-- `Select(...).select_by_index(guests)` then `continue`. -/
  | selectGuestCount
deriving DecidableEq, Repr

/-- Lines 275–282: `guests_selected` is looked up with `safe_find_element`,
but the guest `<select>` itself with the raw
`driver.find_element(By.NAME, 'guest')`, which raises when absent. -/
def guest_handler (guestsSelectedOption : Option Unit) (guestSelect : Option Unit) :
    Except PyError GuestAction :=
  match safe_find_element guestsSelectedOption with
  | some _ => .ok .fallThroughToCalendar
  | none =>
      match find_element guestSelect with
      | .ok _ => .ok .selectGuestCount
      | .error e => .error e

/-- C6: with the requested guest count not yet selected and no `<select>`
named `guest` on the page, the guest branch raises `NoSuchElementException`,
and the control loop's `except` clauses do not catch it — it crashes rather
than warn-sleep-retry. -/
theorem guest_handler_crashes_on_missing_select :
    guest_handler none none = .error .noSuchElement
    ∧ loop_catches .noSuchElement = false := ⟨rfl, rfl⟩

/-!
## Page-state decision chain of the control loop (lines 171–340)

The `while True` body is a chain of `if ... continue` blocks over
`driver.title`, `driver.page_source` and element lookups; `classify` records
which block captures a given page snapshot, in the code's evaluation order.
-/

/-- Does `needle` occur at the head of the character list? -/
def starts_with_chars : List Char → List Char → Bool
  | [], _ => true
  | _ :: _, [] => false
  | a :: as, b :: bs => a == b && starts_with_chars as bs

/-- Python's `needle in hay` on strings: some position of `hay` starts with
`needle`. -/
def contains_chars (needle : List Char) : List Char → Bool
  | [] => needle.isEmpty
  | hay@(_ :: rest) => starts_with_chars needle hay || contains_chars needle rest

/-- `needle in hay` lifted to `String`. -/
def str_contains (hay needle : String) : Bool :=
  contains_chars needle.toList hay.toList

/-- The recognized workflow steps. -/
inductive PageState where
  | Loading
  | CaptchaChallenge
  | TermsUnchecked
  | TermsUnagreed
  | EmailAuthPrompt
  | Congested
  | GuestUnset
  | CalendarMonthMismatch
  | DateUnselected
  | DateSelectedAwaitingNext
  | TimeSlotListPresent
  | NoTimeSlotsListed
  | ReservationPendingCompletion
  | Unclassified
deriving DecidableEq, Repr

/-- One poll tick's view of the page: `driver.title`, `driver.page_source`,
and the outcome of each element lookup the loop body performs. -/
structure Snapshot where
  title : String
  content : String
  /-- `#agreeChecked:not(:checked)` found. -/
  agreeCheckboxUnchecked : Bool
  /-- `#forms-agree .button-container-agree button:not(:disabled)` found. -/
  agreeButtonEnabled : Bool
  /-- `a.button[href='/reserve/step1']` found. -/
  continueButton : Bool
  /-- element with id `time_table` found. -/
  timeTablePresent : Bool
  /-- number of `#time_table .time-cell a` matches. -/
  slotLinkCount : Nat
  /-- `option[selected='selected'][value='{guests}']` found. -/
  guestsSelectedCorrect : Bool
  /-- `#step2-form h3` header found, and the year/month its text parses to
  (`None` when the header is absent; header present but unparseable is
  folded into `None` here: the code only warns and sleeps there). -/
  displayedYearMonth : Option (Nat × Nat)
  /-- the requested day's `calendar-day-cell` found. -/
  dateCellPresent : Bool
  /-- that cell's `class` attribute holds `selected`. -/
  dateCellSelected : Bool
deriving DecidableEq, Repr

/-- Which block of the loop body (lines 171–340) captures the snapshot, in
the code's order: the empty-title/empty-source check runs first (line 173),
the captcha check second (line 178), then terms, email-auth, congestion and
the Table Reservation subtree. -/
def classify (reqYear reqMonth : Nat) (s : Snapshot) : PageState :=
  if s.title.isEmpty || s.content.isEmpty then .Loading
  else if str_contains s.content "confirm you are human" then .CaptchaChallenge
  else if str_contains s.content "/ Agree to terms" && s.agreeCheckboxUnchecked then
    .TermsUnchecked
  else if str_contains s.content "/ Agree to terms" && s.agreeButtonEnabled then
    .TermsUnagreed
  else if str_contains s.content "About Email Address Authentication"
      && s.continueButton then .EmailAuthPrompt
  else if str_contains s.content "congested" then .Congested
  else if str_contains s.content "Table Reservation" then
    if s.timeTablePresent then
      if s.slotLinkCount = 0 then .NoTimeSlotsListed else .TimeSlotListPresent
    else if str_contains s.content "complete your reservation" then
      .ReservationPendingCompletion
    else if !s.guestsSelectedCorrect then .GuestUnset
    else
      match s.displayedYearMonth with
      | some (y, m) =>
          if y ≠ reqYear ∨ m ≠ reqMonth then .CalendarMonthMismatch
          else if s.dateCellPresent && !s.dateCellSelected then .DateUnselected
          else if s.dateCellPresent && s.dateCellSelected then .DateSelectedAwaitingNext
          else .Unclassified
      | none => .Unclassified
  else .Unclassified

/-- A transitional snapshot: the captcha marker is already in the page source
but the title is still empty. -/
def captchaWhileLoadingSnap : Snapshot where
  title := ""
  content := "confirm you are human"
  agreeCheckboxUnchecked := false
  agreeButtonEnabled := false
  continueButton := false
  timeTablePresent := false
  slotLinkCount := 0
  guestsSelectedCorrect := false
  displayedYearMonth := none
  dateCellPresent := false
  dateCellSelected := false

/-- C7 counterexample: a snapshot whose content holds the human-verification
marker but whose title is empty is captured by the empty-title check, which
the code runs before the captcha check — it is classified `Loading`, not
`CaptchaChallenge`. -/
theorem classify_captcha_priority_counterexample :
    str_contains captchaWhileLoadingSnap.content "confirm you are human" = true
    ∧ captchaWhileLoadingSnap.title = ""
    ∧ classify 2026 3 captchaWhileLoadingSnap = .Loading
    ∧ classify 2026 3 captchaWhileLoadingSnap ≠ .CaptchaChallenge := by decide

/-- C7 amended: the loop's checks run in the code's fixed order with the
emptiness (Loading) check first; once title and content are non-empty, a
content holding the human-verification marker is classified
`CaptchaChallenge` before every later check. -/
theorem classify_captcha_priority (reqYear reqMonth : Nat) (s : Snapshot)
    (ht : s.title.isEmpty = false) (hc : s.content.isEmpty = false)
    (hm : str_contains s.content "confirm you are human" = true) :
    classify reqYear reqMonth s = .CaptchaChallenge := by
  unfold classify
  rw [ht, hc, hm]
  rfl

/-- A snapshot with the captcha marker and a loaded (non-empty) title. -/
def captchaLoadedSnap : Snapshot :=
  { captchaWhileLoadingSnap with title := "Pokemon Cafe" }

/-- C7 witness: on a loaded page containing the marker, the classification is
`CaptchaChallenge`. -/
theorem classify_captcha_priority_witness :
    classify 2026 3 captchaLoadedSnap = .CaptchaChallenge :=
  classify_captcha_priority 2026 3 captchaLoadedSnap rfl rfl (by decide)

/-!
## Target-time waiter `wait_until_datetime` (lines 19–27)

Instants are integers (seconds).  A run of the loop is driven by the
sequence of wall-clock readings that successive `datetime.now(target.tzinfo)`
calls return; the list is finite, covering every run that terminates.
-/

/-- `wait_until_datetime(target)`: at each wake read `now`; return (the
reading at which the loop broke) once `now >= target`, else sleep and wake
again with the next reading. -/
def wait_until_datetime (target : Int) : List Int → Option Int
  | [] => none
  | now :: later =>
      if target ≤ now then some now else wait_until_datetime target later

/-- The sleep durations the run requests: at a wake with `now < target` the
loop sleeps `(target - now).total_seconds()`. -/
def wait_sleeps (target : Int) : List Int → List Int
  | [] => []
  | now :: later =>
      if target ≤ now then [] else (target - now) :: wait_sleeps target later

/-- C8: a terminating run of `wait_until_datetime` returns at the first
wall-clock reading `≥ target` — never at an earlier reading — and every
sleep it requested was exactly the remainder `target - now` at a wake with
`now < target`. -/
theorem wait_until_datetime_correct (target : Int) (nows : List Int) (r : Int)
    (h : wait_until_datetime target nows = some r) :
    target ≤ r
    ∧ (∃ pre post, nows = pre ++ r :: post ∧ ∀ n ∈ pre, n < target)
    ∧ (∀ d ∈ wait_sleeps target nows, ∃ now ∈ nows, now < target ∧ d = target - now) := by
  induction nows with
  | nil => exact absurd h (by simp [wait_until_datetime])
  | cons now later ih =>
      by_cases hn : target ≤ now
      · simp only [wait_until_datetime, if_pos hn, Option.some.injEq] at h
        subst h
        refine ⟨hn, ⟨[], later, rfl, by simp⟩, ?_⟩
        intro d hd
        simp only [wait_sleeps, if_pos hn] at hd
        exact absurd hd (List.not_mem_nil d)
      · simp only [wait_until_datetime, if_neg hn] at h
        obtain ⟨h1, ⟨pre, post, hsplit, hpre⟩, hsleep⟩ := ih h
        refine ⟨h1, ⟨now :: pre, post, by rw [hsplit]; rfl, ?_⟩, ?_⟩
        · intro n hn'
          rcases List.mem_cons.mp hn' with heq | hn'
          · subst heq; exact Int.not_le.mp hn
          · exact hpre n hn'
        · intro d hd
          simp only [wait_sleeps, if_neg hn] at hd
          rcases List.mem_cons.mp hd with heq | hd'
          · subst heq
            exact ⟨now, List.mem_cons_self _ _, Int.not_le.mp hn, rfl⟩
          · obtain ⟨n, hn1, hn2, hn3⟩ := hsleep d hd'
            exact ⟨n, List.mem_cons_of_mem now hn1, hn2, hn3⟩

/-- C8 witness: a run with readings `60, 90, 105` against target `100`
returns at `105 ≥ 100`, the readings before it are `< 100`, and every sleep
was the exact remainder. -/
theorem wait_until_datetime_correct_witness :
    (100 : Int) ≤ 105
    ∧ (∃ pre post, ([60, 90, 105] : List Int) = pre ++ (105 : Int) :: post
        ∧ ∀ n ∈ pre, n < (100 : Int))
    ∧ (∀ d ∈ wait_sleeps 100 [60, 90, 105],
        ∃ now ∈ ([60, 90, 105] : List Int), now < 100 ∧ d = 100 - now) :=
  wait_until_datetime_correct 100 [60, 90, 105] 105 (by decide)

/-!
## Pre-loop wait handling (lines 144–157)

Instants are JST wall-clock minutes; `dateDays` is the requested date as a
day count, so `datetime(date, 18:00, tzinfo=japan_tz) - timedelta(days=31)`
is `(dateDays - 31) * 1440 + 18 * 60` minutes.
-/

/-- `reservations_open` (lines 145–146): 18:00 JST, 31 days before the
requested date. -/
def reservations_open (dateDays : Int) : Int := (dateDays - 31) * 1440 + 18 * 60

/-- The `if args.wait:` block (lines 148–157): with
`target_time = reservations_open - timedelta(minutes=1)`, invoke
`wait_until_datetime(reservations_open)` when `now < target_time` (the result
is the waiter's target), otherwise print the skip notice and wait nothing. -/
def wait_handling (dateDays now : Int) : Option Int :=
  let opening := reservations_open dateDays
  let target_time := opening - 1
  if now < target_time then some opening else none

/-- C9 counterexample: at one minute before opening (`now = opening - 1`),
the code skips waiting even though the opening instant is still in the
future. -/
theorem wait_handling_counterexample :
    wait_handling 100 (reservations_open 100 - 1) = none
    ∧ ¬ (reservations_open 100 < reservations_open 100 - 1) := by decide

/-- C9 amended: waiting is skipped if and only if `now` has reached
`opening - 1` minute (not: the opening instant is in the past); whenever the
waiter is invoked its target is exactly the opening instant. -/
theorem wait_handling_spec (dateDays now : Int) :
    (wait_handling dateDays now = none ↔ reservations_open dateDays - 1 ≤ now)
    ∧ (∀ t, wait_handling dateDays now = some t → t = reservations_open dateDays) := by
  unfold wait_handling
  constructor
  · by_cases hn : now < reservations_open dateDays - 1
    · simp only [if_pos hn]
      constructor
      · intro h; exact absurd h (by simp)
      · intro h; exact absurd hn (Int.not_lt.mpr h)
    · simp only [if_neg hn]
      exact ⟨fun _ => Int.not_lt.mp hn, fun _ => trivial⟩
  · intro t h
    by_cases hn : now < reservations_open dateDays - 1
    · simp only [if_pos hn, Option.some.injEq] at h
      exact h.symm
    · simp only [if_neg hn] at h
      exact absurd h (by simp)

/-- C9 witness: on a run where the waiter is invoked, its target is the
computed opening instant (day 100, `now` well before opening). -/
theorem wait_handling_spec_witness :
    (100440 : Int) = reservations_open 100 :=
  (wait_handling_spec 100 100000).2 100440 (by decide)

/-!
## Calendar month navigation (lines 287–309)
-/

/-- Gregorian leap-year rule, as used by Python `datetime.date`. -/
def is_leap (y : Nat) : Bool := (y % 4 == 0 && !(y % 100 == 0)) || y % 400 == 0

/-- Length of month `m` in year `y`. -/
def days_in_month (y m : Nat) : Nat :=
  if m = 2 then (if is_leap y then 29 else 28)
  else if m = 4 ∨ m = 6 ∨ m = 9 ∨ m = 11 then 30
  else 31

/-- A Python `datetime.date` value. -/
structure PyDate where
  year : Nat
  month : Nat
  day : Nat
deriving DecidableEq, Repr

/-- The `date(year, month, day)` constructor: raises `ValueError` unless
`MINYEAR (1) ≤ year ≤ MAXYEAR (9999)`, `1 ≤ month ≤ 12` and
`1 ≤ day ≤ days_in_month(year, month)`. -/
def date_new (y m d : Nat) : Except PyError PyDate :=
  if 1 ≤ y ∧ y ≤ 9999 ∧ 1 ≤ m ∧ m ≤ 12 ∧ 1 ≤ d ∧ d ≤ days_in_month y m
  then .ok ⟨y, m, d⟩ else .error .valueError

/-- Python `date` ordering: lexicographic on `(year, month, day)`. -/
def date_lt (a b : PyDate) : Bool :=
  a.year < b.year
  || (a.year == b.year
      && (a.month < b.month || (a.month == b.month && a.day < b.day)))

/-- What the month-mismatch branch does when it does not raise. -/
inductive CalendarAction where
  /-- click the next-month pager (`div:nth-child(3) > .calendar-pager`). -/
  | clickNextMonth
  /-- click the previous-month pager (`div:nth-child(1) > .calendar-pager`). -/
  | clickPreviousMonth
  /-- the displayed year/month already match: continue to the day-cell code. -/
  | fallThroughToDateCell
  /-- a mismatch was seen but the needed pager button is absent (or neither
  comparison fired): control falls past the pager code into the day-cell code
  while the wrong month is displayed. -/
  | fallPastPager
deriving DecidableEq, Repr

/-- Lines 293–309: on `selected_year != args.date.year or selected_month !=
args.date.month`, the code builds `date(selected_year, selected_month,
args.date.day)` and compares it with the requested date to pick a pager
direction; `nextBtn`/`prevBtn` say whether the pager lookups succeed. -/
def calendar_nav (selYear selMonth : Nat) (req : PyDate)
    (nextBtn prevBtn : Bool) : Except PyError CalendarAction :=
  if selYear ≠ req.year ∨ selMonth ≠ req.month then
    match date_new selYear selMonth req.day with
    | .error e => .error e
    | .ok d =>
        if date_lt d req then
          if nextBtn then .ok .clickNextMonth else .ok .fallPastPager
        else if date_lt req d then
          if prevBtn then .ok .clickPreviousMonth else .ok .fallPastPager
        else .ok .fallPastPager
  else .ok .fallThroughToDateCell

/-- C10: whenever the displayed year/month differs from the requested one and
the requested day-of-month does not exist in the displayed month, the
`date(selected_year, selected_month, args.date.day)` construction raises
`ValueError`, which the control loop's `except` clauses do not catch: the
run crashes instead of paging the calendar or degrading. -/
theorem calendar_nav_raises_on_short_month (selYear selMonth : Nat) (req : PyDate)
    (nextBtn prevBtn : Bool)
    (hmismatch : selYear ≠ req.year ∨ selMonth ≠ req.month)
    (hday : days_in_month selYear selMonth < req.day) :
    calendar_nav selYear selMonth req nextBtn prevBtn = .error .valueError
    ∧ loop_catches .valueError = false := by
  have hd : date_new selYear selMonth req.day = .error .valueError := by
    unfold date_new
    split
    next hcon => exact absurd hcon.2.2.2.2.2 (Nat.not_le_of_lt hday)
    next => rfl
  constructor
  · unfold calendar_nav
    rw [if_pos hmismatch, hd]
  · rfl

/-- C10 witness: February 2026 displayed, 2026-03-31 requested — the month
differs, February 2026 has 28 < 31 days, and the branch raises an uncaught
`ValueError`. -/
theorem calendar_nav_raises_on_short_month_witness :
    calendar_nav 2026 2 ⟨2026, 3, 31⟩ true true = .error .valueError
    ∧ loop_catches .valueError = false :=
  calendar_nav_raises_on_short_month 2026 2 ⟨2026, 3, 31⟩ true true
    (by decide) (by decide)

end PokemonCafe
